import Mathlib

/-!
Verification of the FinalProject_Receiver repository against its design
specification.

The repository holds two Arduino sketches in one source file
(`src/lib/IoAbstraction/examples/dfRobotRotaryEncoder/dfRobotRotaryEncoder.ino`):

* a rotary-encoder display demo whose `PaintEvent` class is the spec's
  **RefreshGate** (rate-limited, edge-triggered refresh scheduler), and
* a LoRa-to-Bluetooth relay whose `loop()` body is the spec's
  **FrameParser** (comma-delimited three-field splitter feeding a
  Bluetooth transport sink).

Frames and fields are modelled as `List Char`; the Arduino `String`
primitives `indexOf` and `substring` are embedded directly.  The
transport and serial sinks are modelled as the list of strings written
by the successive `print`/`println` calls of the sketch.
-/

/-- Embedding of Arduino `String.indexOf(ch)` restricted to a suffix:
first index (counted from the head of `l`) at which `c` occurs, `none`
when absent. -/
def idxFrom (c : Char) : List Char → Option Nat
  | [] => none
  | x :: xs => if x = c then some 0 else (idxFrom c xs).map (· + 1)

/-- Embedding of Arduino `String.indexOf(ch, fromIndex)`: scans `l`
from position `start` and returns the absolute index of the first
occurrence of `c`, or `-1` (as in the C++ API) when there is none. -/
def indexOfI (l : List Char) (c : Char) (start : Nat) : Int :=
  match idxFrom c (l.drop start) with
  | some i => ((start + i : Nat) : Int)
  | none => -1

/-- Embedding of Arduino `String.substring(from, to)`: the characters
at indices `[a, b)`. -/
def substring (l : List Char) (a b : Nat) : List Char :=
  (l.take b).drop a

/-- Embedding of Arduino `String.substring(from)`: the characters from
index `a` to the end. -/
def substringFrom (l : List Char) (a : Nat) : List Char :=
  l.drop a

/-- Embedding of the frame-splitting logic of the receiver sketch's
`loop()` (lines 208–215): `separatorIndex1 = receivedData.indexOf(',')`,
`separatorIndex2 = receivedData.indexOf(',', separatorIndex1 + 1)`, and
the three `substring` extractions guarded by
`separatorIndex1 != -1 && separatorIndex2 != -1`.  `none` models the
malformed-frame case (`ParseError::Malformed` in the spec): the frame is
dropped and nothing further happens. -/
def parse (receivedData : List Char) : Option (List Char × List Char × List Char) :=
  let separatorIndex1 := indexOfI receivedData ',' 0
  let separatorIndex2 := indexOfI receivedData ',' (separatorIndex1 + 1).toNat
  if separatorIndex1 ≠ -1 ∧ separatorIndex2 ≠ -1 then
    some (substring receivedData 0 separatorIndex1.toNat,
          substring receivedData (separatorIndex1.toNat + 1) separatorIndex2.toNat,
          substringFrom receivedData (separatorIndex2.toNat + 1))
  else
    none

/-- Line ending appended by Arduino `Print::println`. -/
def crlf : List Char := ['\r', '\n']

/-- The sequence of writes the sketch issues to the Bluetooth transport
sink for one received frame, one list entry per `bt.print`/`bt.println`
call (lines 223–228): `bt.print(data1); bt.print(";"); bt.print(data2);
bt.print(";"); bt.print(0); bt.println(";")`.  A frame that does not
parse produces no write. -/
def btSends (receivedData : List Char) : List (List Char) :=
  match parse receivedData with
  | some (data1, data2, _data3) =>
      [data1, [';'], data2, [';'], ['0'], ';' :: crlf]
  | none => []

/-- Concatenation of a list of sink writes into the raw byte stream. -/
def writes (sends : List (List Char)) : List Char :=
  sends.foldr (fun a b => a ++ b) []

/-- The exact byte stream the sketch writes to the Bluetooth transport
sink for one received frame. -/
def btBytes (receivedData : List Char) : List Char :=
  writes (btSends receivedData)

/-- The sequence of lines the sketch prints to the serial monitor for
one received frame, one entry per `Serial.println` call
(lines 218–220). -/
def serialSends (receivedData : List Char) : List (List Char) :=
  match parse receivedData with
  | some (data1, data2, data3) =>
      [('D' :: 'a' :: 't' :: 'a' :: ' ' :: '1' :: ':' :: ' ' :: data1) ++ crlf,
       ('D' :: 'a' :: 't' :: 'a' :: ' ' :: '2' :: ':' :: ' ' :: data2) ++ crlf,
       ('D' :: 'a' :: 't' :: 'a' :: ' ' :: '3' :: ':' :: ' ' :: data3) ++ crlf]
  | none => []

/-- Processing of a stream of complete frames, one `loop()` iteration
per frame: the concatenated list of Bluetooth sink writes. -/
def processFrames : List (List Char) → List (List Char)
  | [] => []
  | f :: fs => btSends f ++ processFrames fs

theorem idxFrom_eq_none {c : Char} {l : List Char} :
    idxFrom c l = none ↔ c ∉ l := by
  induction l with
  | nil => simp [idxFrom]
  | cons x xs ih =>
    by_cases hx : x = c
    · subst hx; simp [idxFrom]
    · simp only [idxFrom, if_neg hx, Option.map_eq_none', ih, List.mem_cons]
      constructor
      · intro h hm
        rcases hm with h1 | h2
        · exact hx h1.symm
        · exact h h2
      · intro h hm
        exact h (Or.inr hm)

theorem idxFrom_append {c : Char} {p : List Char} (q : List Char)
    (hp : c ∉ p) : idxFrom c (p ++ c :: q) = some p.length := by
  induction p with
  | nil => simp [idxFrom]
  | cons x xs ih =>
    have hx : ¬ x = c := fun h => hp (by simp [h])
    have hxs : c ∉ xs := fun h => hp (by simp [h])
    simp [idxFrom, hx, ih hxs]

theorem idxFrom_some_decomp {c : Char} {l : List Char} {i : Nat}
    (h : idxFrom c l = some i) :
    ∃ p q, l = p ++ c :: q ∧ p.length = i ∧ c ∉ p := by
  induction l generalizing i with
  | nil => simp [idxFrom] at h
  | cons x xs ih =>
    by_cases hx : x = c
    · subst hx
      simp [idxFrom] at h
      exact ⟨[], xs, by simp, by simp [← h], by simp⟩
    · simp [idxFrom, hx] at h
      obtain ⟨j, hj, hji⟩ := h
      obtain ⟨p, q, hl, hlen, hcp⟩ := ih hj
      refine ⟨x :: p, q, by simp [hl], by simp [hlen, hji], ?_⟩
      intro hmem
      rcases List.mem_cons.mp hmem with h1 | h2
      · exact hx h1.symm
      · exact hcp h2

theorem substring_first (x rest : List Char) :
    substring (x ++ ',' :: rest) 0 x.length = x := by
  simp [substring, List.take_left' rfl]

theorem substring_middle (x y rest : List Char) :
    substring (x ++ ',' :: (y ++ ',' :: rest)) (x.length + 1) (x.length + 1 + y.length) = y := by
  have hx : x ++ ',' :: (y ++ ',' :: rest) = (x ++ [',']) ++ (y ++ ',' :: rest) := by
    simp
  rw [substring, hx]
  have hlen : (x ++ [',']).length = x.length + 1 := by simp
  rw [← hlen, List.take_append]
  have hy : (y ++ ',' :: rest).take y.length = y := List.take_left' rfl
  rw [hy, List.drop_left]

theorem substring_last (x y z : List Char) :
    substringFrom (x ++ ',' :: (y ++ ',' :: z)) (x.length + 1 + y.length + 1) = z := by
  have hx : x ++ ',' :: (y ++ ',' :: z) = (x ++ ',' :: (y ++ [','])) ++ z := by
    simp
  rw [substringFrom, hx]
  exact List.drop_left' (by simp; omega)

theorem drop_after_first (x rest : List Char) :
    (x ++ ',' :: rest).drop (x.length + 1) = rest := by
  have hx : x ++ ',' :: rest = (x ++ [',']) ++ rest := by simp
  rw [hx]
  exact List.drop_left' (by simp)

/-- Completeness of the splitter: a frame built from three fields with
the first two comma-free parses back to exactly those fields. -/
theorem parse_append (d1 d2 d3 : List Char)
    (h1 : ',' ∉ d1) (h2 : ',' ∉ d2) :
    parse (d1 ++ ',' :: (d2 ++ ',' :: d3)) = some (d1, d2, d3) := by
  have e1 : indexOfI (d1 ++ ',' :: (d2 ++ ',' :: d3)) ',' 0 = (d1.length : Int) := by
    simp [indexOfI, idxFrom_append _ h1]
  have et : ((d1.length : Int) + 1).toNat = d1.length + 1 := by omega
  have e2 : indexOfI (d1 ++ ',' :: (d2 ++ ',' :: d3)) ',' (d1.length + 1)
      = ((d1.length + 1 + d2.length : Nat) : Int) := by
    rw [indexOfI, drop_after_first, idxFrom_append _ h2]
  rw [parse]
  simp only [e1, et, e2]
  split
  · rw [Int.toNat_natCast, Int.toNat_natCast, substring_first,
      substring_middle, substring_last]
  · rename_i hcond
    exfalso
    apply hcond
    constructor
    · omega
    · omega

/-- Soundness of the splitter: a successful parse decomposes the frame
into the three fields, with no comma in the first two. -/
theorem parse_some_decomp {l d1 d2 d3 : List Char}
    (h : parse l = some (d1, d2, d3)) :
    l = d1 ++ ',' :: (d2 ++ ',' :: d3) ∧ ',' ∉ d1 ∧ ',' ∉ d2 := by
  cases hi1 : idxFrom ',' l with
  | none =>
    have e1 : indexOfI l ',' 0 = -1 := by simp [indexOfI, hi1]
    rw [parse] at h
    simp [e1] at h
  | some i1 =>
    obtain ⟨p, q, hl, hlen, hp⟩ := idxFrom_some_decomp hi1
    have e1 : indexOfI l ',' 0 = (i1 : Int) := by simp [indexOfI, hi1]
    have et : ((i1 : Int) + 1).toNat = i1 + 1 := by omega
    have hdrop : l.drop (i1 + 1) = q := by
      rw [hl, ← hlen]
      exact drop_after_first p q
    cases hi2 : idxFrom ',' q with
    | none =>
      have e2 : indexOfI l ',' (i1 + 1) = -1 := by
        simp [indexOfI, hdrop, hi2]
      rw [parse] at h
      simp [e1, et, e2] at h
    | some j =>
      obtain ⟨p2, q2, hq, hlen2, hp2⟩ := idxFrom_some_decomp hi2
      have e2 : indexOfI l ',' (i1 + 1) = ((i1 + 1 + j : Nat) : Int) := by
        simp [indexOfI, hdrop, hi2]
      rw [parse] at h
      simp only [e1, et, e2] at h
      rw [if_pos] at h
      · rw [Int.toNat_natCast, Int.toNat_natCast] at h
        subst hl hq
        rw [← hlen, ← hlen2] at h
        rw [substring_first, substring_middle, substring_last] at h
        simp only [Option.some.injEq, Prod.mk.injEq] at h
        obtain ⟨hd1, hd2, hd3⟩ := h
        subst hd1 hd2 hd3
        exact ⟨rfl, hp, hp2⟩
      · constructor
        · omega
        · omega

theorem count_pos_split {l : List Char} (h : 1 ≤ l.count ',') :
    ∃ p q, l = p ++ ',' :: q ∧ ',' ∉ p := by
  induction l with
  | nil => simp at h
  | cons x xs ih =>
    by_cases hx : x = ','
    · exact ⟨[], xs, by simp [hx], by simp⟩
    · have hcount : xs.count ',' = (x :: xs).count ',' := by
        simp [List.count_cons, hx]
      obtain ⟨p, q, hl, hp⟩ := ih (by omega)
      refine ⟨x :: p, q, by simp [hl], ?_⟩
      intro hmem
      rcases List.mem_cons.mp hmem with h1 | h2
      · exact hx h1.symm
      · exact hp h2

theorem two_le_count_split {l : List Char} (h : 2 ≤ l.count ',') :
    ∃ d1 d2 d3, l = d1 ++ ',' :: (d2 ++ ',' :: d3) ∧ ',' ∉ d1 ∧ ',' ∉ d2 := by
  have h1 : 1 ≤ l.count ',' := by omega
  obtain ⟨p, q, hl, hp⟩ := count_pos_split h1
  have hq : 1 ≤ q.count ',' := by
    have : l.count ',' = p.count ',' + (q.count ',' + 1) := by
      simp [hl, List.count_append, List.count_cons]
    have hp0 : p.count ',' = 0 := List.count_eq_zero.mpr hp
    omega
  obtain ⟨p2, q2, hq2, hp2⟩ := count_pos_split hq
  exact ⟨p, p2, q2, by simp [hl, hq2], hp, hp2⟩

theorem parse_count {l data1 data2 data3 : List Char}
    (h : parse l = some (data1, data2, data3)) :
    l.count ',' = data3.count ',' + 2 := by
  obtain ⟨hl, h1, h2⟩ := parse_some_decomp h
  have e1 : data1.count ',' = 0 := List.count_eq_zero.mpr h1
  have e2 : data2.count ',' = 0 := List.count_eq_zero.mpr h2
  simp [hl, List.count_append, List.count_cons, e1, e2]

theorem parse_eq_none_of_count_lt {l : List Char} (h : l.count ',' < 2) :
    parse l = none := by
  cases hp : parse l with
  | none => rfl
  | some t =>
    obtain ⟨data1, data2, data3⟩ := t
    have := parse_count hp
    omega

/-- C1 counterexample: the frame `"A,B,C"` parses into three fields with
third field `"C"`, yet `"C"` is not among the writes issued to the
Bluetooth transport sink — indeed no `'C'` byte reaches the sink at all
(the sketch sends the constant `0` where the third field would go). -/
theorem claim1_cex :
    parse "A,B,C".toList = some ("A".toList, "B".toList, "C".toList) ∧
    "C".toList ∉ btSends "A,B,C".toList ∧
    'C' ∉ btBytes "A,B,C".toList := by decide

/-- C1 (amended): for every frame that parses into three fields, the
transport sink receives exactly six writes: the first field, a `";"`
separator, the second field, a `";"` separator, the constant `"0"` in
place of the third field, and the terminator `";"` plus the `println`
line ending.  The third parsed field is never written to the transport
sink. -/
theorem claim1_amended (l data1 data2 data3 : List Char)
    (h : parse l = some (data1, data2, data3)) :
    btSends l = [data1, [';'], data2, [';'], ['0'], ';' :: crlf] ∧
    btBytes l = data1 ++ ';' :: (data2 ++ ';' :: ('0' :: ';' :: crlf)) := by
  constructor
  · simp [btSends, h]
  · simp [btBytes, btSends, h, writes]

/-- Witness for C1 (amended) at the concrete frame `"A,B,C"`. -/
theorem claim1_amended_witness :
    btSends "A,B,C".toList
        = ["A".toList, [';'], "B".toList, [';'], ['0'], ';' :: crlf] ∧
    btBytes "A,B,C".toList
        = "A".toList ++ ';' :: ("B".toList ++ ';' :: ('0' :: ';' :: crlf)) :=
  claim1_amended "A,B,C".toList "A".toList "B".toList "C".toList (by decide)

/-- C2: for every received frame with at least two comma delimiters, the
parse succeeds and the exact byte sequence written to the Bluetooth
transport sink is field1, `';'`, field2, `';'`, `'0'`, `';'` and the
`println` line ending — a function of the first two fields only.  The
third parsed field appears in the serial-monitor output (the
`"Data 3: "` line) and nowhere in the Bluetooth byte stream, whose shape
does not mention it. -/
theorem claim2_bt_exact_bytes (l : List Char) (h : 2 ≤ l.count ',') :
    ∃ data1 data2 data3,
      parse l = some (data1, data2, data3) ∧
      btBytes l = data1 ++ ';' :: (data2 ++ ';' :: ('0' :: ';' :: crlf)) ∧
      serialSends l =
        [('D' :: 'a' :: 't' :: 'a' :: ' ' :: '1' :: ':' :: ' ' :: data1) ++ crlf,
         ('D' :: 'a' :: 't' :: 'a' :: ' ' :: '2' :: ':' :: ' ' :: data2) ++ crlf,
         ('D' :: 'a' :: 't' :: 'a' :: ' ' :: '3' :: ':' :: ' ' :: data3) ++ crlf] := by
  obtain ⟨d1, d2, d3, hl, h1, h2⟩ := two_le_count_split h
  have hp : parse l = some (d1, d2, d3) := by
    rw [hl]; exact parse_append d1 d2 d3 h1 h2
  refine ⟨d1, d2, d3, hp, ?_, ?_⟩
  · simp [btBytes, btSends, hp, writes]
  · simp [serialSends, hp]

/-- Witness for C2 at the concrete frame `"A,B,C"`. -/
theorem claim2_bt_exact_bytes_witness :
    2 ≤ "A,B,C".toList.count ',' ∧
    (∃ data1 data2 data3,
      parse "A,B,C".toList = some (data1, data2, data3) ∧
      btBytes "A,B,C".toList
          = data1 ++ ';' :: (data2 ++ ';' :: ('0' :: ';' :: crlf)) ∧
      serialSends "A,B,C".toList =
        [('D' :: 'a' :: 't' :: 'a' :: ' ' :: '1' :: ':' :: ' ' :: data1) ++ crlf,
         ('D' :: 'a' :: 't' :: 'a' :: ' ' :: '2' :: ':' :: ' ' :: data2) ++ crlf,
         ('D' :: 'a' :: 't' :: 'a' :: ' ' :: '3' :: ':' :: ' ' :: data3) ++ crlf]) :=
  ⟨by decide, claim2_bt_exact_bytes "A,B,C".toList (by decide)⟩

/-- C3: a frame with fewer than two comma delimiters is dropped
silently: the parse fails (`none`, modelling `ParseError::Malformed`),
nothing is written to the Bluetooth sink or the serial monitor, and a
stream continues with the remaining frames exactly as if the malformed
frame had not occurred. -/
theorem claim3_malformed_dropped (l : List Char) (rest : List (List Char))
    (h : l.count ',' < 2) :
    parse l = none ∧ btSends l = [] ∧ serialSends l = [] ∧
    processFrames (l :: rest) = processFrames rest := by
  have hn : parse l = none := parse_eq_none_of_count_lt h
  refine ⟨hn, ?_, ?_, ?_⟩
  · simp [btSends, hn]
  · simp [serialSends, hn]
  · simp [processFrames, btSends, hn]

/-- Witness for C3: the one-comma frame `"A"` is dropped and the next
frame `"P,Q,R"` of the stream is processed as usual. -/
theorem claim3_malformed_dropped_witness :
    "A".toList.count ',' < 2 ∧
    (parse "A".toList = none ∧ btSends "A".toList = [] ∧
     serialSends "A".toList = [] ∧
     processFrames ("A".toList :: ["P,Q,R".toList])
        = processFrames ["P,Q,R".toList]) :=
  ⟨by decide, claim3_malformed_dropped "A".toList ["P,Q,R".toList] (by decide)⟩

/-- C7: the greedy last field.  Concretely `parse "A,B,C,D"` yields
`["A","B","C,D"]`; in general the third field absorbs every delimiter
beyond the two that are located, so its comma count is the frame's
comma count minus two, and the frame is exactly the three fields glued
with the two located delimiters. -/
theorem claim7_greedy_last_field :
    parse "A,B,C,D".toList = some ("A".toList, "B".toList, "C,D".toList) ∧
    ∀ l data1 data2 data3 : List Char,
      parse l = some (data1, data2, data3) →
        data3.count ',' = l.count ',' - 2 ∧
        l = data1 ++ ',' :: (data2 ++ ',' :: data3) := by
  refine ⟨by decide, fun l d1 d2 d3 h => ?_⟩
  have hc := parse_count h
  obtain ⟨hl, _, _⟩ := parse_some_decomp h
  exact ⟨by omega, hl⟩

/-- Witness for C7's general part at the concrete frame `"A,B,C,D"`. -/
theorem claim7_greedy_last_field_witness :
    "C,D".toList.count ',' = "A,B,C,D".toList.count ',' - 2 ∧
    "A,B,C,D".toList
        = "A".toList ++ ',' :: ("B".toList ++ ',' :: "C,D".toList) :=
  claim7_greedy_last_field.2 "A,B,C,D".toList "A".toList "B".toList
    "C,D".toList (by decide)

/-- C8: delimiters are located left-to-right and the fields are the
substrings between them: a parse returns `(data1, data2, data3)` exactly
when the frame is `data1 ++ "," ++ data2 ++ "," ++ data3` with no comma
inside the first two fields (which makes the located delimiters the
leftmost ones); concretely `parse "A,B,C"` yields `["A","B","C"]`. -/
theorem claim8_fields_between_delimiters :
    parse "A,B,C".toList = some ("A".toList, "B".toList, "C".toList) ∧
    ∀ l data1 data2 data3 : List Char,
      parse l = some (data1, data2, data3) ↔
        (l = data1 ++ ',' :: (data2 ++ ',' :: data3) ∧
         ',' ∉ data1 ∧ ',' ∉ data2) := by
  refine ⟨by decide, fun l d1 d2 d3 => ⟨parse_some_decomp, ?_⟩⟩
  rintro ⟨hl, h1, h2⟩
  rw [hl]
  exact parse_append d1 d2 d3 h1 h2

/-- Witness for C8's characterization at the concrete frame `"X,Y,Z"`. -/
theorem claim8_fields_between_delimiters_witness :
    parse "X,Y,Z".toList = some ("X".toList, "Y".toList, "Z".toList) :=
  (claim8_fields_between_delimiters.2 "X,Y,Z".toList "X".toList "Y".toList
    "Z".toList).mpr (by decide)

/-- C9: empty fields are valid: concretely `parse ",B,"` yields
`["","B",""]`, and in general a frame with a leading delimiter, a
comma-free middle field and a trailing delimiter parses to an empty
first and third field. -/
theorem claim9_empty_fields :
    parse ",B,".toList = some ([], "B".toList, []) ∧
    ∀ data2 : List Char, ',' ∉ data2 →
      parse (',' :: (data2 ++ [','])) = some ([], data2, []) := by
  refine ⟨by decide, fun d2 h2 => ?_⟩
  have h := parse_append [] d2 [] (by simp) h2
  simpa using h

/-- Witness for C9's general part with middle field `"X"` (frame
`",X,"`). -/
theorem claim9_empty_fields_witness :
    parse (',' :: ("X".toList ++ [','])) = some ([], "X".toList, []) :=
  claim9_empty_fields.2 "X".toList (by decide)

/-- Select-button states of the display demo (`PaintEvent::PaintButtonState`,
line 38). -/
inductive PaintButtonState where
  | NOT_PRESSED
  | PRESSED
  | BUTTON_HELD
deriving DecidableEq

/-- The pending state accumulated by `PaintEvent` (lines 40–42): the
latest select-button state, encoder reading and cursor key.  This is the
snapshot handed to the render sink (`exec`, lines 49–79). -/
structure PaintFields where
  selState : PaintButtonState
  encoderReading : Int
  cursorKey : Int
deriving DecidableEq

/-- Modelled from the spec: the RefreshGate state.  The sketch's
`PaintEvent` inherits `triggered` handling and the polled scheduling
from `BaseEvent`/`TaskManagerIO`, which are library code not present
under `src/`; §3 of the spec describes that state as the fields below.
`interval` is the configured minimum render spacing (the sketch's
`timeOfNextCheck` returns `250UL * 1000UL`, lines 44–47). -/
structure PaintEvent where
  fields : PaintFields
  triggered : Bool
  nextEligibleTime : Nat
  interval : Nat
deriving DecidableEq

/-- The sketch's gate interval: 250 ms in microseconds
(`250UL * 1000UL`, line 46). -/
def paintEventDemoInterval : Nat := 250 * 1000

/-- The global `paintEvent` object before `setup()` runs: C++
zero-initialization of the static object gives `NOT_PRESSED` (value 0),
reading 0 and cursor key 0; nothing is pending and the gate is
immediately eligible. -/
def initialPaintEvent (interval : Nat) : PaintEvent :=
  { fields := { selState := PaintButtonState.NOT_PRESSED,
                encoderReading := 0, cursorKey := 0 },
    triggered := false, nextEligibleTime := 0, interval := interval }

/-- Embedding of `PaintEvent::currentReading` (lines 81–85): store the
latest reading and set `triggered` (the sketch's `setTriggered(true)`),
deliberately without notifying so the event waits out the interval. -/
def currentReading (reading : Int) (e : PaintEvent) : PaintEvent :=
  { e with fields := { e.fields with encoderReading := reading },
           triggered := true }

/-- Embedding of `PaintEvent::selectChanged` (lines 87–91): store the
latest button state and set `triggered`. -/
def selectChanged (state : PaintButtonState) (e : PaintEvent) : PaintEvent :=
  { e with fields := { e.fields with selState := state },
           triggered := true }

/-- Embedding of `PaintEvent::cursor` (lines 93–96): store the latest
cursor key and set `triggered`. -/
def cursor (pin : Int) (e : PaintEvent) : PaintEvent :=
  { e with fields := { e.fields with cursorKey := pin },
           triggered := true }

/-- Modelled from the spec: `forceFirstTrigger()` (§4.1), the sketch's
`paintEvent.markTriggeredAndNotify()` in `setup()` (line 118) whose
`BaseEvent` implementation is not under `src/`: it marks the event
triggered so the first poll renders. -/
def forceFirstTrigger (e : PaintEvent) : PaintEvent :=
  { e with triggered := true }

/-- Modelled from the spec: `poll(now)` (§4.1), the task manager's
polled evaluation of the event (library code not under `src/`): if
`triggered && now >= nextEligibleTime` it invokes the render sink with
the current snapshot (the sketch's `exec`), resets `triggered` and sets
`nextEligibleTime = now + interval`; otherwise it is a no-op. -/
def poll (now : Nat) (e : PaintEvent) : PaintEvent × Option PaintFields :=
  if e.triggered = true ∧ e.nextEligibleTime ≤ now then
    ({ e with triggered := false, nextEligibleTime := now + e.interval },
     some e.fields)
  else
    (e, none)

/-- A producer call into the gate: one of the three field setters of
`PaintEvent`. -/
inductive SetOp where
  | reading (reading : Int)
  | select (state : PaintButtonState)
  | cursorKey (pin : Int)

/-- One step of the cooperative loop: either a producer setter or a
scheduler poll at a given monotonic time. -/
inductive Op where
  | set (op : SetOp)
  | poll (now : Nat)

/-- Apply one setter call to the gate. -/
def applySet (op : SetOp) (e : PaintEvent) : PaintEvent :=
  match op with
  | SetOp.reading r => currentReading r e
  | SetOp.select st => selectChanged st e
  | SetOp.cursorKey p => cursor p e

/-- Apply a sequence of setter calls, first to last. -/
def applySets (ops : List SetOp) (e : PaintEvent) : PaintEvent :=
  match ops with
  | [] => e
  | op :: rest => applySets rest (applySet op e)

/-- Run a sequence of steps against the gate, returning the final gate
state and the renders that occurred, each as the poll time paired with
the snapshot handed to the render sink. -/
def run (e : PaintEvent) : List Op → PaintEvent × List (Nat × PaintFields)
  | [] => (e, [])
  | Op.set s :: ops => run (applySet s e) ops
  | Op.poll t :: ops =>
      match poll t e with
      | (e2, none) => run e2 ops
      | (e2, some snap) =>
          let rest := run e2 ops
          (rest.1, (t, snap) :: rest.2)

/-- The renders produced by a run: poll times paired with snapshots. -/
def renders (e : PaintEvent) (ops : List Op) : List (Nat × PaintFields) :=
  (run e ops).2

theorem applySet_nextEligibleTime (op : SetOp) (e : PaintEvent) :
    (applySet op e).nextEligibleTime = e.nextEligibleTime := by
  cases op <;> rfl

theorem applySet_interval (op : SetOp) (e : PaintEvent) :
    (applySet op e).interval = e.interval := by
  cases op <;> rfl

theorem applySets_nextEligibleTime (ops : List SetOp) (e : PaintEvent) :
    (applySets ops e).nextEligibleTime = e.nextEligibleTime := by
  induction ops generalizing e with
  | nil => rfl
  | cons op rest ih =>
    rw [applySets, ih, applySet_nextEligibleTime]

theorem applySets_interval (ops : List SetOp) (e : PaintEvent) :
    (applySets ops e).interval = e.interval := by
  induction ops generalizing e with
  | nil => rfl
  | cons op rest ih =>
    rw [applySets, ih, applySet_interval]

theorem run_sets_append (sets : List SetOp) (e : PaintEvent) (ops : List Op) :
    run e (sets.map Op.set ++ ops) = run (applySets sets e) ops := by
  induction sets generalizing e with
  | nil => rfl
  | cons s rest ih =>
    simp only [List.map_cons, List.cons_append, run, applySets]
    exact ih (applySet s e)

theorem renders_nil (e : PaintEvent) : renders e [] = [] := rfl

theorem renders_set (e : PaintEvent) (s : SetOp) (ops : List Op) :
    renders e (Op.set s :: ops) = renders (applySet s e) ops := rfl

theorem renders_poll_pos (e : PaintEvent) (t : Nat) (ops : List Op)
    (hc : e.triggered = true ∧ e.nextEligibleTime ≤ t) :
    renders e (Op.poll t :: ops)
      = (t, e.fields) ::
        renders { e with triggered := false,
                         nextEligibleTime := t + e.interval } ops := by
  simp [renders, run, poll, hc]

theorem renders_poll_neg (e : PaintEvent) (t : Nat) (ops : List Op)
    (hc : ¬ (e.triggered = true ∧ e.nextEligibleTime ≤ t)) :
    renders e (Op.poll t :: ops) = renders e ops := by
  simp [renders, run, poll, hc]

/-- Every render of a run happens no earlier than the gate's pending
eligibility time. -/
theorem renders_lower (ops : List Op) :
    ∀ e : PaintEvent, ∀ p ∈ renders e ops, e.nextEligibleTime ≤ p.1 := by
  induction ops with
  | nil =>
    intro e p hp
    simp [renders_nil] at hp
  | cons op rest ih =>
    intro e p hp
    cases op with
    | set s =>
      rw [renders_set] at hp
      have h := ih (applySet s e) p hp
      rwa [applySet_nextEligibleTime] at h
    | poll t =>
      by_cases hc : e.triggered = true ∧ e.nextEligibleTime ≤ t
      · rw [renders_poll_pos e t rest hc] at hp
        rcases List.mem_cons.mp hp with h1 | h2
        · rw [h1]
          exact hc.2
        · have h3 : t + e.interval ≤ p.1 := ih _ p h2
          have h4 := hc.2
          omega
      · rw [renders_poll_neg e t rest hc] at hp
        exact ih e p hp

/-- Consecutive renders of a run are spaced at least the gate's interval
apart. -/
theorem renders_chain (i : Nat) (ops : List Op) :
    ∀ e : PaintEvent, e.interval = i →
      List.Chain' (fun a b => a.1 + i ≤ b.1) (renders e ops) := by
  induction ops with
  | nil =>
    intro e _
    simp [renders_nil]
  | cons op rest ih =>
    intro e hi
    cases op with
    | set s =>
      rw [renders_set]
      exact ih _ (by rw [applySet_interval]; exact hi)
    | poll t =>
      by_cases hc : e.triggered = true ∧ e.nextEligibleTime ≤ t
      · rw [renders_poll_pos e t rest hc, List.chain'_cons']
        constructor
        · intro b hb
          have hmem := List.mem_of_mem_head? hb
          have h3 : t + e.interval ≤ b.1 := renders_lower rest _ b hmem
          rw [hi] at h3
          exact h3
        · exact ih _ (by simp [hi])
      · rw [renders_poll_neg e t rest hc]
        exact ih e hi

theorem renders_sets_append (sets : List SetOp) (e : PaintEvent) (ops : List Op) :
    renders e (sets.map Op.set ++ ops) = renders (applySets sets e) ops := by
  rw [renders, run_sets_append]
  rfl

/-- C4: a render occurs only when `triggered = true` and
`nextEligibleTime <= now`; it hands the current snapshot to the sink,
resets `triggered` and sets `nextEligibleTime = now + interval`; and
consequently, over any run, consecutive renders at times `t, t'` satisfy
`t + interval <= t'`. -/
theorem claim4_render_gate_and_spacing :
    (∀ (now : Nat) (e : PaintEvent) (snap : PaintFields),
        (poll now e).2 = some snap →
          (e.triggered = true ∧ e.nextEligibleTime ≤ now) ∧
          snap = e.fields ∧
          (poll now e).1.triggered = false ∧
          (poll now e).1.nextEligibleTime = now + e.interval) ∧
    (∀ (e : PaintEvent) (ops : List Op),
        List.Chain' (fun a b => a.1 + e.interval ≤ b.1) (renders e ops)) := by
  constructor
  · intro now e snap hsnap
    by_cases hc : e.triggered = true ∧ e.nextEligibleTime ≤ now
    · simp only [poll, if_pos hc, Option.some.injEq] at hsnap
      refine ⟨hc, hsnap.symm, ?_, ?_⟩
      · simp [poll, hc]
      · simp [poll, hc]
    · simp [poll, hc] at hsnap
  · intro e ops
    exact renders_chain e.interval ops e rfl

/-- The triggered gate the sketch's `setup()` produces: the global
`paintEvent` after `markTriggeredAndNotify()`, with the sketch's 250 ms
interval. -/
def demoGateTriggered : PaintEvent :=
  forceFirstTrigger (initialPaintEvent paintEventDemoInterval)

/-- Witness for C4's per-poll part: polling the triggered demo gate at
time 5 renders and re-arms the interval. -/
theorem claim4_witness :
    (demoGateTriggered.triggered = true ∧ demoGateTriggered.nextEligibleTime ≤ 5) ∧
    demoGateTriggered.fields = demoGateTriggered.fields ∧
    (poll 5 demoGateTriggered).1.triggered = false ∧
    (poll 5 demoGateTriggered).1.nextEligibleTime = 5 + demoGateTriggered.interval :=
  claim4_render_gate_and_spacing.1 5 demoGateTriggered demoGateTriggered.fields
    (by decide)

/-- C5: for any sequence of setter calls strictly between two polls less
than `interval` apart, at most one render occurs, and the run's render
list is empty, or the first poll's render of the then-current fields, or
the second poll's render of the fields after all the setters were
applied in order (last-write-wins per field). -/
theorem claim5_coalescing (e : PaintEvent) (t1 t2 : Nat) (sets : List SetOp)
    (h : t2 < t1 + e.interval) :
    (renders e (Op.poll t1 :: (sets.map Op.set ++ [Op.poll t2]))).length ≤ 1 ∧
    (renders e (Op.poll t1 :: (sets.map Op.set ++ [Op.poll t2])) = [] ∨
     renders e (Op.poll t1 :: (sets.map Op.set ++ [Op.poll t2]))
        = [(t1, e.fields)] ∨
     renders e (Op.poll t1 :: (sets.map Op.set ++ [Op.poll t2]))
        = [(t2, (applySets sets e).fields)]) := by
  by_cases hc1 : e.triggered = true ∧ e.nextEligibleTime ≤ t1
  · rw [renders_poll_pos e t1 _ hc1, renders_sets_append]
    have hne : ¬ ((applySets sets
          { e with triggered := false,
                   nextEligibleTime := t1 + e.interval }).triggered = true ∧
        (applySets sets
          { e with triggered := false,
                   nextEligibleTime := t1 + e.interval }).nextEligibleTime ≤ t2) := by
      rw [applySets_nextEligibleTime]
      rintro ⟨-, hle⟩
      change t1 + e.interval ≤ t2 at hle
      omega
    rw [renders_poll_neg _ _ _ hne, renders_nil]
    exact ⟨by simp, Or.inr (Or.inl rfl)⟩
  · rw [renders_poll_neg e t1 _ hc1, renders_sets_append]
    by_cases hc2 : (applySets sets e).triggered = true ∧
        (applySets sets e).nextEligibleTime ≤ t2
    · rw [renders_poll_pos _ _ _ hc2, renders_nil]
      exact ⟨by simp, Or.inr (Or.inr rfl)⟩
    · rw [renders_poll_neg _ _ _ hc2, renders_nil]
      exact ⟨by simp, Or.inl rfl⟩

/-- A concrete burst of producer calls: two encoder readings (5 then 7)
and one select press between two polls. -/
def demoSets : List SetOp :=
  [SetOp.reading 5, SetOp.select PaintButtonState.PRESSED, SetOp.reading 7]

/-- Witness for C5: from the untriggered initial gate, a burst of three
setter calls between polls at times 0 and 100 (well inside the 250 ms
interval) yields exactly the third disjunct — one render at the second
poll carrying reading 7, the last value written. -/
theorem claim5_witness :
    (100 < 0 + (initialPaintEvent paintEventDemoInterval).interval) ∧
    ((renders (initialPaintEvent paintEventDemoInterval)
        (Op.poll 0 :: (demoSets.map Op.set ++ [Op.poll 100]))).length ≤ 1 ∧
     (renders (initialPaintEvent paintEventDemoInterval)
        (Op.poll 0 :: (demoSets.map Op.set ++ [Op.poll 100])) = [] ∨
      renders (initialPaintEvent paintEventDemoInterval)
        (Op.poll 0 :: (demoSets.map Op.set ++ [Op.poll 100]))
          = [(0, (initialPaintEvent paintEventDemoInterval).fields)] ∨
      renders (initialPaintEvent paintEventDemoInterval)
        (Op.poll 0 :: (demoSets.map Op.set ++ [Op.poll 100]))
          = [(100, (applySets demoSets
                (initialPaintEvent paintEventDemoInterval)).fields)])) :=
  ⟨by decide,
   claim5_coalescing (initialPaintEvent paintEventDemoInterval) 0 100 demoSets
     (by decide)⟩

/-- C6: `forceFirstTrigger()` at initialization followed by the first
`poll(t0)` renders the initial snapshot, for every interval and every
`t0`, even though no field setter has run. -/
theorem claim6_first_trigger_renders (interval t0 : Nat) :
    (poll t0 (forceFirstTrigger (initialPaintEvent interval))).2
      = some (initialPaintEvent interval).fields := by
  simp [poll, forceFirstTrigger, initialPaintEvent]

/-- C10: each setter of the gate sets `triggered`, leaves
`nextEligibleTime` and `interval` unchanged, causes no render by itself,
and updates exactly its own field, leaving the other two field values
untouched. -/
theorem claim10_setters_frame_effect (e : PaintEvent) :
    (∀ op : SetOp,
        (applySet op e).triggered = true ∧
        (applySet op e).nextEligibleTime = e.nextEligibleTime ∧
        (applySet op e).interval = e.interval ∧
        renders e [Op.set op] = []) ∧
    (∀ r : Int,
        (currentReading r e).fields.encoderReading = r ∧
        (currentReading r e).fields.selState = e.fields.selState ∧
        (currentReading r e).fields.cursorKey = e.fields.cursorKey) ∧
    (∀ st : PaintButtonState,
        (selectChanged st e).fields.selState = st ∧
        (selectChanged st e).fields.encoderReading = e.fields.encoderReading ∧
        (selectChanged st e).fields.cursorKey = e.fields.cursorKey) ∧
    (∀ p : Int,
        (cursor p e).fields.cursorKey = p ∧
        (cursor p e).fields.selState = e.fields.selState ∧
        (cursor p e).fields.encoderReading = e.fields.encoderReading) := by
  refine ⟨fun op => ?_, fun r => ⟨rfl, rfl, rfl⟩,
    fun st => ⟨rfl, rfl, rfl⟩, fun p => ⟨rfl, rfl, rfl⟩⟩
  cases op <;>
    exact ⟨rfl, rfl, rfl, rfl⟩
